import Mathlib

/-!
Order cache and persistence pipeline (`l0`).

A shallow embedding of `pkg/cache/cache.go` and of the message loop of
`pkg/dbclient/client.go`, with the properties of the cache (TTL sentinel,
delete, expiry and sweep, overwrite, key snapshot) and of the pipeline
(per-key order, rehydration, error handling) stated over it.

Conventions of the embedding.

* A method on `*Cache` takes the cache value and returns the cache value after
  the call, next to its Go result (explicit state passing).
* `time.Now()` is an argument: every clock reading a method makes is a
  parameter of its model, an `Int` holding Unix nanoseconds (the value
  `time.Now().UnixNano()` has in the source).
* `int64` and `time.Duration` values are `Int`; the one place where the source
  can leave the `int64` range, `time.Now().Add(duration).UnixNano()`, wraps
  explicitly (`wrap64`).
* `map[string]Item` is a finite map: a list of key/entry pairs without a
  repeated key. The order of the list stands for the (unspecified) iteration
  order of the Go map.
-/

namespace L0

/-! ## Machine integers -/

/-- Two to the 63: one more than the largest `int64`. -/
def int64Bound : Int := 9223372036854775808

/-- The `int64` value a mathematical integer wraps to (two's complement). -/
def wrap64 (x : Int) : Int :=
  (x + int64Bound) % (2 * int64Bound) - int64Bound

/-- The integer is representable as an `int64`. -/
def IsInt64 (x : Int) : Prop := -int64Bound ≤ x ∧ x < int64Bound

instance (x : Int) : Decidable (IsInt64 x) := by
  unfold IsInt64; infer_instance

/-! ## The Go map -/

/-- The finite map behind `map[string]T`: key/value pairs, no key twice. -/
structure GoMap (β : Type) where
  entries : List (String × β)
  nodup : (entries.map Prod.fst).Nodup

namespace GoMap

variable {β : Type}

/-- The result of `make(map[string]T)`. -/
def empty : GoMap β := ⟨[], List.nodup_nil⟩

/-- First value bound to the key in a list of pairs. -/
def lookupList (k : String) : List (String × β) → Option β
  | [] => none
  | (k', v) :: rest => if k' = k then some v else lookupList k rest

/-- The pairs whose key differs from `k`. -/
def eraseList (k : String) (l : List (String × β)) : List (String × β) :=
  l.filter (fun p => decide (p.1 ≠ k))

/-- Reading `m[k]` with the comma-ok form: `none` stands for `found == false`. -/
def lookup (m : GoMap β) (k : String) : Option β := lookupList k m.entries

/-- The assignment `m[k] = v`: binds `k`, replacing an earlier binding. -/
def store (m : GoMap β) (k : String) (v : β) : GoMap β :=
  ⟨(k, v) :: eraseList k m.entries, by
    rw [List.map_cons, List.nodup_cons]
    refine ⟨?_, m.nodup.sublist ((List.filter_sublist m.entries).map Prod.fst)⟩
    intro h
    rcases List.mem_map.1 h with ⟨p, hp, hk⟩
    have hne := (List.mem_filter.1 hp).2
    simp [hk] at hne⟩

/-- The builtin `delete(m, k)`: no effect when `k` is not bound. -/
def remove (m : GoMap β) (k : String) : GoMap β :=
  ⟨eraseList k m.entries, m.nodup.sublist ((List.filter_sublist m.entries).map Prod.fst)⟩

/-- The builtin `len(m)`. -/
def len (m : GoMap β) : Nat := m.entries.length

/-- The keys in iteration order. -/
def keys (m : GoMap β) : List String := m.entries.map Prod.fst

instance [DecidableEq β] : DecidableEq (GoMap β) := fun a b =>
  decidable_of_iff (a.entries = b.entries) (by
    cases a; cases b; simp)

end GoMap

/-! ## `pkg/cache/cache.go` -/

/-- The struct `Item`: `Created` is the `time.Time` as Unix nanoseconds,
`Expiration` the `int64` Unix-nanosecond deadline, `0` when there is none. -/
structure Item (V : Type) where
  Value : V
  Created : Int
  Expiration : Int
deriving DecidableEq, Repr

/-- The struct `Cache` (the lock is not part of the sequential state). -/
structure Cache (V : Type) where
  defaultExpiration : Int
  cleanupInterval : Int
  items : GoMap (Item V)

namespace Cache

variable {V : Type}

instance [DecidableEq V] : DecidableEq (Cache V) := fun a b =>
  decidable_of_iff
    (a.defaultExpiration = b.defaultExpiration ∧ a.cleanupInterval = b.cleanupInterval
      ∧ a.items = b.items) (by
    cases a; cases b; simp)

/-- The constructor `New`: an empty map with the two configured durations.
Starting the sweeper goroutine does not change the value returned. -/
def New (defaultExpiration cleanupInterval : Int) : Cache V :=
  { defaultExpiration := defaultExpiration
    cleanupInterval := cleanupInterval
    items := GoMap.empty }

/-- The local `expiration` of `Set` after its two `if`s: `duration == 0` takes
the default, and only a positive duration gives a deadline, computed from the
clock reading `t1` by `time.Now().Add(duration).UnixNano()`. -/
def expirationOf (defaultExpiration duration t1 : Int) : Int :=
  let duration := if duration = 0 then defaultExpiration else duration
  if duration > 0 then wrap64 (t1 + duration) else 0

/-- The lifetime the spec gives an entry written with `ttlOverride`: the
override when it is not zero, else the configured default. -/
def effectiveTTL (defaultExpiration ttlOverride : Int) : Int :=
  if ttlOverride ≠ 0 then ttlOverride else defaultExpiration

/-- Method `Set`. `t1` is the clock read before the lock is taken (for
`Expiration`), `t2` the clock read under the lock (for `Created`). -/
def Set (c : Cache V) (key : String) (value : V) (duration t1 t2 : Int) : Cache V :=
  let item : Item V :=
    { Value := value
      Expiration := expirationOf c.defaultExpiration duration t1
      Created := t2 }
  { c with items := c.items.store key item }

/-- Method `Get` with the clock reading `now`: `none` is `(nil, false)`,
`some v` is `(v, true)`. -/
def Get (c : Cache V) (key : String) (now : Int) : Option V × Cache V :=
  match c.items.lookup key with
  | none => (none, c)
  | some item =>
    if item.Expiration > 0 then
      if now > item.Expiration then (none, c) else (some item.Value, c)
    else (some item.Value, c)

/-- Method `Delete`: the error (`none` is `nil`) and the cache afterwards. -/
def Delete (c : Cache V) (key : String) : Option String × Cache V :=
  match c.items.lookup key with
  | none => (some "key not found", c)
  | some _ => (none, { c with items := c.items.remove key })

/-- Method `Size`. -/
def Size (c : Cache V) : Nat × Cache V := (c.items.len, c)

/-- The loop of `AllIDs`: writes each key at index `i` of the slice. -/
def allIDsLoop : List (String × Item V) → List String → Nat → List String
  | [], keys, _ => keys
  | (k, _) :: rest, keys, i => allIDsLoop rest (keys.set i k) (i + 1)

/-- Method `AllIDs`: a slice of `len(c.items)` empty strings filled by the loop. -/
def AllIDs (c : Cache V) : List String × Cache V :=
  (allIDsLoop c.items.entries (List.replicate c.items.len "") 0, c)

/-- The loop of `expiredKeys`: the clock is read at every entry; `clock n` is
the reading at the `n`-th entry visited. -/
def expiredKeysLoop (clock : Nat → Int) :
    List (String × Item V) → Nat → List String → List String
  | [], _, keys => keys
  | (k, i) :: rest, n, keys =>
    if clock n > i.Expiration ∧ i.Expiration > 0 then
      expiredKeysLoop clock rest (n + 1) (keys ++ [k])
    else expiredKeysLoop clock rest (n + 1) keys

/-- Method `expiredKeys`. -/
def expiredKeys (c : Cache V) (clock : Nat → Int) : List String × Cache V :=
  (expiredKeysLoop clock c.items.entries 0 [], c)

/-- Method `clearItems`: `delete` for every key of the slice, in order. -/
def clearItems (c : Cache V) (keys : List String) : Cache V :=
  { c with items := keys.foldl (fun m k => m.remove k) c.items }

/-- One round of the loop of `GC` after the timer fired (the map is never
`nil` once `New` made it): collect, then clear when something was collected. -/
def GCtick (c : Cache V) (clock : Nat → Int) : Cache V :=
  let r := c.expiredKeys clock
  if r.1.length ≠ 0 then r.2.clearItems r.1 else r.2

end Cache

/-! ## Workers: `Cache.Init`, `Cache.Start`, `dbclient.Start` -/

/-- Modelled from the spec: the struct `models.Order` of package
`l0/pkg/models`, which is not among the sources. The spec gives an order an id
that is part of the payload, and a body the cache never looks into; the code
reads the field `OrderUid` only. -/
structure Order where
  OrderUid : String
  body : String
deriving DecidableEq, Repr

/-- What a `select` of a worker loop receives: a value on its channel, or the
interrupt signal. -/
inductive Event (α : Type) where
  | recv (a : α)
  | interrupt
deriving DecidableEq, Repr

namespace Cache

/-- The loop of `Init` over the rows of the query. A row is the outcome of
`rows.Scan(&id, &order)`: `none` for an error, else the id column and the
decoded order. `clock n` holds the two clock readings of the `n`-th `Set` made.
The result is `none` when `log.Fatal` ended the process. -/
def initLoop (clock : Nat → Int × Int) :
    Cache Order → List (Option (String × Order)) → Nat → Option (Cache Order)
  | c, [], _ => some c
  | _, none :: _, _ => none
  | c, some (id, order) :: rest, n =>
    if id = order.OrderUid then
      initLoop clock (c.Set order.OrderUid order 0 (clock n).1 (clock n).2) rest (n + 1)
    else initLoop clock c rest n

/-- Method `Init` on the rows the query returned. -/
def Init (c : Cache Order) (rows : List (Option (String × Order)))
    (clock : Nat → Int × Int) : Option (Cache Order) :=
  initLoop clock c rows 0

/-- The loop of method `Start`: every order received is stored under its own
id with `ttlOverride` 0; the interrupt makes the method return. An exhausted
list leaves the worker waiting in its `select`. -/
def startLoop (clock : Nat → Int × Int) :
    Cache Order → List (Event Order) → Nat → Cache Order
  | c, [], _ => c
  | c, Event.interrupt :: _, _ => c
  | c, Event.recv order :: rest, n =>
    let c1 := (c.Size).2
    let c2 := c1.Set order.OrderUid order 0 (clock n).1 (clock n).2
    startLoop clock (c2.Size).2 rest (n + 1)

/-- Method `Start` on what arrives on `orderChannel`. -/
def Start (c : Cache Order) (arrivals : List (Event Order))
    (clock : Nat → Int × Int) : Cache Order :=
  startLoop clock c arrivals 0

end Cache

namespace Dbclient

/-- Severity of a zerolog entry. -/
inductive Level where
  | debug
  | error
  | fatal
deriving DecidableEq, Repr

/-- Outcome of the insert `pool.Query(...)`: no error, an error that is a
`*pgconn.PgError`, or any other error. -/
inductive InsertResult where
  | ok
  | pgError
  | otherError
deriving DecidableEq, Repr

/-- A message with the outcomes its processing meets: `decoded` is `none` when
`json.Unmarshal` fails, `insert` is what the insert returns for it. -/
structure Msg where
  decoded : Option Order
  insert : InsertResult
deriving DecidableEq, Repr

/-- Where the worker is: in its loop, returned after the interrupt, or gone
with the process (`log.Fatal().Msg` calls `os.Exit(1)`). -/
inductive Status where
  | running
  | returned
  | exited
deriving DecidableEq, Repr

/-- Observable state of the gateway worker: log entries written (oldest
first), orders sent on `cacheChannel` (oldest first), and its status. -/
structure Gateway where
  log : List (Level × String)
  sent : List Order
  status : Status
deriving DecidableEq, Repr

/-- The worker before its first `select`. -/
def Gateway.init : Gateway := { log := [], sent := [], status := Status.running }

/-- The loop of `Start`. -/
def startLoop : Gateway → List (Event Msg) → Gateway
  | g, [] => g
  | g, Event.interrupt :: _ =>
    { g with log := g.log ++ [(Level.debug, "Received an interrupt")]
             status := Status.returned }
  | g, Event.recv msg :: rest =>
    match msg.decoded with
    | none =>
      startLoop
        { g with log := g.log ++ [(Level.error, "Unmarshal order errors. Unknown json struct.")] }
        rest
    | some order =>
      let g1 := { g with log := g.log ++ [(Level.debug, "Unmarshal order OK")] }
      match msg.insert with
      | InsertResult.pgError =>
        { g1 with log := g1.log ++ [(Level.fatal, "Error write message to DB")]
                  status := Status.exited }
      | InsertResult.otherError => startLoop g1 rest
      | InsertResult.ok => startLoop { g1 with sent := g1.sent ++ [order] } rest

/-- Function `Start` on what its `select` receives. -/
def Start (events : List (Event Msg)) : Gateway := startLoop Gateway.init events

end Dbclient

/-! ## The pipeline and the interleaved cache -/

/-- The gateway worker feeding the cache worker through the unbuffered
`orderChannel`: the cache worker receives the orders in the order sent. -/
def pipeline (c : Cache Order) (events : List (Event Dbclient.Msg))
    (clock : Nat → Int × Int) : Cache Order :=
  c.Start ((Dbclient.Start events).sent.map Event.recv) clock

/-- A lock-atomic step on the shared cache: a `Set` or `Delete` of a caller,
or one of the two phases of the sweeper (`expiredKeys` under the read lock,
`clearItems` under the write lock). -/
inductive Step (V : Type) where
  | set (key : String) (value : V) (duration t1 t2 : Int)
  | delete (key : String)
  | collect (clock : Nat → Int)
  | clear

/-- The cache together with the local `keys` of the sweeper while it is
between its two phases. -/
structure Sys (V : Type) where
  cache : Cache V
  pending : Option (List String)

namespace Sys

variable {V : Type}

/-- One step. The sweeper collects only when it holds no keys, goes on to
clear only when it collected some key, and clears what it holds. -/
def step (s : Sys V) : Step V → Sys V
  | Step.set key value duration t1 t2 =>
    { s with cache := s.cache.Set key value duration t1 t2 }
  | Step.delete key => { s with cache := (s.cache.Delete key).2 }
  | Step.collect clock =>
    match s.pending with
    | some _ => s
    | none =>
      let r := s.cache.expiredKeys clock
      if r.1.length ≠ 0 then { cache := r.2, pending := some r.1 }
      else { cache := r.2, pending := none }
  | Step.clear =>
    match s.pending with
    | none => s
    | some keys => { cache := s.cache.clearItems keys, pending := none }

/-- A run: the steps in the order the lock admitted them. -/
def run (s : Sys V) (steps : List (Step V)) : Sys V := steps.foldl step s

end Sys

/-! ## Notions the properties are stated with -/

/-- The message makes the worker end the process: it decodes and its insert
fails with a `*pgconn.PgError`. -/
def Dbclient.Msg.endsProcess (m : Dbclient.Msg) : Bool :=
  m.decoded.isSome && decide (m.insert = Dbclient.InsertResult.pgError)

/-- The message failed: it did not decode, or its insert returned an error. -/
def Dbclient.Msg.failed (m : Dbclient.Msg) : Bool :=
  m.decoded.isNone || decide (m.insert ≠ Dbclient.InsertResult.ok)

/-- The orders of the messages that decoded and were inserted successfully,
in delivery order. -/
def persisted (msgs : List Dbclient.Msg) : List Order :=
  msgs.filterMap (fun m =>
    if m.insert = Dbclient.InsertResult.ok then m.decoded else none)

/-- The last order of the list whose embedded id is `id`. -/
def lastWithId (id : String) (orders : List Order) : Option Order :=
  (orders.filter (fun o => decide (o.OrderUid = id))).getLast?

/-- The orders of the rows whose id column equals the id embedded in the
order, in row order. -/
def matching (rows : List (String × Order)) : List Order :=
  (rows.filter (fun r => decide (r.1 = r.2.OrderUid))).map Prod.snd

/-- Writing each order of a list under its own id with `ttlOverride` 0, the
first write at the clock readings `clock n`, the next at `clock (n + 1)`, and
so on. -/
def setAll (clock : Nat → Int × Int) (c : Cache Order) (orders : List Order) (n : Nat) :
    Cache Order :=
  (orders.enumFrom n).foldl
    (fun c p => c.Set p.2.OrderUid p.2 0 (clock p.1).1 (clock p.1).2) c

/-! ## Facts about the map -/

namespace GoMap

variable {β : Type}

theorem lookupList_eq_none_iff (k : String) (l : List (String × β)) :
    lookupList k l = none ↔ k ∉ l.map Prod.fst := by
  induction l with
  | nil => simp [lookupList]
  | cons p rest ih =>
    obtain ⟨k', v⟩ := p
    by_cases h : k' = k
    · simp [lookupList, h]
    · have h' : ¬ k = k' := fun e => h e.symm
      simp [lookupList, h, h', ih]

theorem lookupList_eraseList_self (k : String) (l : List (String × β)) :
    lookupList k (eraseList k l) = none := by
  induction l with
  | nil => simp [eraseList, lookupList]
  | cons p rest ih =>
    obtain ⟨k', v⟩ := p
    by_cases h : k' = k
    · simpa [eraseList, h] using ih
    · simpa [eraseList, h, lookupList] using ih

theorem lookupList_eraseList_ne {k k' : String} (h : k' ≠ k) (l : List (String × β)) :
    lookupList k' (eraseList k l) = lookupList k' l := by
  induction l with
  | nil => simp [eraseList, lookupList]
  | cons p rest ih =>
    obtain ⟨k'', v⟩ := p
    by_cases h1 : k'' = k
    · have h2 : ¬ k'' = k' := fun e => h (e.symm.trans h1)
      simpa [eraseList, h1, lookupList, h2, h.symm] using ih
    · by_cases h2 : k'' = k'
      · subst h2
        simp [eraseList, h1, lookupList]
      · simpa [eraseList, h1, lookupList, h2] using ih

theorem eraseList_of_not_mem {k : String} {l : List (String × β)}
    (h : k ∉ l.map Prod.fst) : eraseList k l = l := by
  unfold eraseList
  rw [List.filter_eq_self]
  intro p hp
  have : p.1 ≠ k := fun e => h (List.mem_map.2 ⟨p, hp, e⟩)
  simpa using this

theorem length_eraseList_of_mem {k : String} {l : List (String × β)}
    (hnd : (l.map Prod.fst).Nodup) (h : k ∈ l.map Prod.fst) :
    (eraseList k l).length + 1 = l.length := by
  induction l with
  | nil => simp at h
  | cons p rest ih =>
    obtain ⟨k', v⟩ := p
    rw [List.map_cons, List.nodup_cons] at hnd
    by_cases h1 : k' = k
    · subst h1
      have : eraseList k' ((k', v) :: rest) = eraseList k' rest := by
        simp [eraseList]
      rw [this, eraseList_of_not_mem hnd.1]
      simp
    · have hmem : k ∈ rest.map Prod.fst := by
        simp only [List.map_cons, List.mem_cons] at h
        rcases h with h | h
        · exact absurd h.symm h1
        · exact h
      have : eraseList k ((k', v) :: rest) = (k', v) :: eraseList k rest := by
        simp [eraseList, h1]
      rw [this]
      simp only [List.length_cons]
      rw [ih hnd.2 hmem]

theorem eraseList_eraseList_self (k : String) (l : List (String × β)) :
    eraseList k (eraseList k l) = eraseList k l :=
  eraseList_of_not_mem (by
    rw [← lookupList_eq_none_iff]; exact lookupList_eraseList_self k l)

theorem lookup_store_self (m : GoMap β) (k : String) (v : β) :
    (m.store k v).lookup k = some v := by
  simp [store, lookup, lookupList]

theorem lookup_store_ne (m : GoMap β) {k k' : String} (h : k' ≠ k) (v : β) :
    (m.store k v).lookup k' = m.lookup k' := by
  simp [store, lookup, lookupList, h.symm, lookupList_eraseList_ne h]

theorem lookup_remove_self (m : GoMap β) (k : String) :
    (m.remove k).lookup k = none := by
  simp [remove, lookup, lookupList_eraseList_self]

theorem lookup_remove_ne (m : GoMap β) {k k' : String} (h : k' ≠ k) :
    (m.remove k).lookup k' = m.lookup k' := by
  simp [remove, lookup, lookupList_eraseList_ne h]

theorem lookup_eq_none_iff (m : GoMap β) (k : String) :
    m.lookup k = none ↔ k ∉ m.keys :=
  lookupList_eq_none_iff k m.entries

theorem mem_keys_iff (m : GoMap β) (k : String) :
    k ∈ m.keys ↔ (m.lookup k).isSome = true := by
  rw [← not_iff_not, ← lookup_eq_none_iff]
  cases m.lookup k <;> simp

theorem keys_nodup (m : GoMap β) : m.keys.Nodup := m.nodup

theorem ext_entries {a b : GoMap β} (h : a.entries = b.entries) : a = b := by
  cases a; cases b; simp at h; simp [h]

theorem store_store (m : GoMap β) (k : String) (v w : β) :
    (m.store k v).store k w = m.store k w := by
  apply ext_entries
  have : eraseList k ((k, v) :: eraseList k m.entries) = eraseList k m.entries := by
    have h1 : eraseList k ((k, v) :: eraseList k m.entries)
        = eraseList k (eraseList k m.entries) := by simp [eraseList]
    rw [h1, eraseList_eraseList_self]
  simp [store, this]

theorem len_store (m : GoMap β) (k : String) (v : β) :
    (m.store k v).len = if (m.lookup k).isSome then m.len else m.len + 1 := by
  by_cases h : (m.lookup k).isSome = true
  · have hmem : k ∈ m.entries.map Prod.fst := (mem_keys_iff m k).2 h
    have := length_eraseList_of_mem m.nodup hmem
    simp [store, len, h, this]
  · have hnone : m.lookup k = none := by
      cases hl : m.lookup k with
      | none => rfl
      | some w => simp [hl] at h
    have hnot : k ∉ m.entries.map Prod.fst := (lookupList_eq_none_iff k m.entries).1 hnone
    simp [store, len, hnone, eraseList_of_not_mem hnot]

theorem len_remove (m : GoMap β) {k : String} (h : (m.lookup k).isSome = true) :
    (m.remove k).len + 1 = m.len :=
  length_eraseList_of_mem m.nodup ((mem_keys_iff m k).2 h)

theorem count_keys (m : GoMap β) (k : String) :
    m.keys.count k = if (m.lookup k).isSome then 1 else 0 := by
  by_cases h : (m.lookup k).isSome = true
  · rw [if_pos h]
    exact List.count_eq_one_of_mem m.keys_nodup ((mem_keys_iff m k).2 h)
  · rw [if_neg h]
    exact List.count_eq_zero_of_not_mem (fun hm => h ((mem_keys_iff m k).1 hm))

end GoMap

/-! ## Facts about the cache methods -/

namespace Cache

variable {V : Type}

theorem allIDsLoop_fill (rest : List (String × Item V)) :
    ∀ pre suf : List String, suf.length = rest.length →
      allIDsLoop rest (pre ++ suf) pre.length = pre ++ rest.map Prod.fst := by
  induction rest with
  | nil =>
    intro pre suf h
    have : suf = [] := List.length_eq_zero.1 (by simpa using h)
    simp [allIDsLoop, this]
  | cons p rest ih =>
    intro pre suf h
    obtain ⟨k, it⟩ := p
    cases suf with
    | nil => simp at h
    | cons s suf =>
      have hlen : suf.length = rest.length := by simpa using h
      have hset : (pre ++ s :: suf).set pre.length k = (pre ++ [k]) ++ suf := by
        simp [List.set_append]
      have := ih (pre ++ [k]) suf hlen
      simp only [allIDsLoop, hset]
      simpa using this

theorem AllIDs_fst (c : Cache V) : (c.AllIDs).1 = c.items.keys := by
  have := allIDsLoop_fill c.items.entries [] (List.replicate c.items.len "")
    (by simp [GoMap.len])
  simpa [AllIDs, GoMap.keys] using this

theorem Get_snd (c : Cache V) (key : String) (now : Int) : (c.Get key now).2 = c := by
  unfold Get
  split
  · rfl
  · split
    · split <;> rfl
    · rfl

theorem Get_fst_of_lookup_none {c : Cache V} {key : String} (h : c.items.lookup key = none)
    (now : Int) : (c.Get key now).1 = none := by
  simp [Get, h]

theorem Get_fst_of_lookup_some {c : Cache V} {key : String} {it : Item V}
    (h : c.items.lookup key = some it) (now : Int) :
    (c.Get key now).1 =
      if 0 < it.Expiration ∧ it.Expiration < now then none else some it.Value := by
  unfold Get
  rw [h]
  by_cases h1 : it.Expiration > 0
  · by_cases h2 : now > it.Expiration
    · simp [h1, h2]
    · simp [h1, h2]
  · simp [h1]

theorem Set_lookup_self (c : Cache V) (key : String) (value : V) (duration t1 t2 : Int) :
    (c.Set key value duration t1 t2).items.lookup key =
      some { Value := value, Created := t2
             Expiration := expirationOf c.defaultExpiration duration t1 } := by
  simp [Set, GoMap.lookup_store_self]

theorem Set_lookup_ne (c : Cache V) {key k' : String} (h : k' ≠ key) (value : V)
    (duration t1 t2 : Int) :
    (c.Set key value duration t1 t2).items.lookup k' = c.items.lookup k' := by
  simp [Set, GoMap.lookup_store_ne _ h]

end Cache

/-! ## Delete, overwrite, key snapshot -/

/-- Claim C2. `Delete(k)` returns the error exactly when `k` is not bound in
the map. With the error the cache is the one before the call. Without it the
two durations are kept, every other key keeps its entry, `k` is unbound, the
map is one entry shorter, and `Get(k)` reports not-found at any time. -/
theorem C2_delete_semantics {V : Type} (c : Cache V) (k : String) :
    (((c.Delete k).1.isSome = true) ↔ c.items.lookup k = none) ∧
    ((c.Delete k).1.isSome = true → (c.Delete k).2 = c) ∧
    ((c.Delete k).1 = none →
      (c.Delete k).2.defaultExpiration = c.defaultExpiration ∧
      (c.Delete k).2.cleanupInterval = c.cleanupInterval ∧
      (∀ k', k' ≠ k → (c.Delete k).2.items.lookup k' = c.items.lookup k') ∧
      (c.Delete k).2.items.lookup k = none ∧
      ((c.Delete k).2.Size).1 + 1 = (c.Size).1 ∧
      ∀ now, ((c.Delete k).2.Get k now).1 = none) := by
  cases h : c.items.lookup k with
  | none => simp [Cache.Delete, h]
  | some it =>
    have hs : (c.items.lookup k).isSome = true := by simp [h]
    refine ⟨by simp [Cache.Delete, h], by simp [Cache.Delete, h], ?_⟩
    intro _
    have hD : c.Delete k = (none, { c with items := c.items.remove k }) := by
      simp [Cache.Delete, h]
    rw [hD]
    refine ⟨rfl, rfl, fun k' hk' => GoMap.lookup_remove_ne _ hk',
      GoMap.lookup_remove_self _ _, ?_, fun now => ?_⟩
    · simpa [Cache.Size] using GoMap.len_remove c.items hs
    · exact Cache.Get_fst_of_lookup_none (GoMap.lookup_remove_self _ _) now

/-- Claim C9. `Set(k, v1, ttl1)` followed by `Set(k, v2, ttl2)` gives the
cache that `Set(k, v2, ttl2)` alone gives: `k` is listed once, bound to `v2`
with the expiration computed from `ttl2` and the creation time of the second
call; `Size` after both calls is `Size` after the first, which is the old
`Size` when `k` was bound and one more otherwise; other keys keep their entry. -/
theorem C9_overwrite_last_writer_wins {V : Type} (c : Cache V) (k : String) (v1 v2 : V)
    (ttl1 ttl2 t1 t2 t3 t4 : Int) :
    (c.Set k v1 ttl1 t1 t2).Set k v2 ttl2 t3 t4 = c.Set k v2 ttl2 t3 t4 ∧
    ((c.Set k v1 ttl1 t1 t2).Set k v2 ttl2 t3 t4).items.lookup k =
      some { Value := v2, Created := t4
             Expiration := Cache.expirationOf c.defaultExpiration ttl2 t3 } ∧
    ((((c.Set k v1 ttl1 t1 t2).Set k v2 ttl2 t3 t4).AllIDs).1.count k = 1) ∧
    ((((c.Set k v1 ttl1 t1 t2).Set k v2 ttl2 t3 t4).Size).1 =
      ((c.Set k v1 ttl1 t1 t2).Size).1) ∧
    (((c.Set k v1 ttl1 t1 t2).Size).1 =
      if (c.items.lookup k).isSome then (c.Size).1 else (c.Size).1 + 1) ∧
    (∀ k', k' ≠ k →
      ((c.Set k v1 ttl1 t1 t2).Set k v2 ttl2 t3 t4).items.lookup k' = c.items.lookup k') := by
  have hEq : (c.Set k v1 ttl1 t1 t2).Set k v2 ttl2 t3 t4 = c.Set k v2 ttl2 t3 t4 := by
    simp [Cache.Set, GoMap.store_store]
  have hl := Cache.Set_lookup_self c k v2 ttl2 t3 t4
  refine ⟨hEq, ?_, ?_, ?_, ?_, ?_⟩
  · rw [hEq]; exact hl
  · rw [hEq, Cache.AllIDs_fst, GoMap.count_keys, hl]; rfl
  · simp [Cache.Size, Cache.Set, GoMap.len_store, GoMap.lookup_store_self]
  · simp [Cache.Size, Cache.Set, GoMap.len_store]
  · intro k' hk'
    rw [hEq]; exact Cache.Set_lookup_ne c hk' v2 ttl2 t3 t4

/-- Claim C10. `AllIDs` lists every key bound in the map once and nothing
else, so its length is `Size`; a key whose entry is past its deadline (so that
`Get` reports not-found) is listed all the same; `AllIDs` and `Size` return
the cache they were called on. -/
theorem C10_keys_snapshot {V : Type} (c : Cache V) :
    (∀ k, (c.AllIDs).1.count k = if (c.items.lookup k).isSome then 1 else 0) ∧
    (c.AllIDs).1.length = (c.Size).1 ∧
    (∀ k it now, c.items.lookup k = some it → 0 < it.Expiration → it.Expiration < now →
      (c.Get k now).1 = none ∧ k ∈ (c.AllIDs).1) ∧
    (c.AllIDs).2 = c ∧ (c.Size).2 = c := by
  refine ⟨fun k => ?_, ?_, ?_, rfl, rfl⟩
  · rw [Cache.AllIDs_fst]; exact GoMap.count_keys c.items k
  · rw [Cache.AllIDs_fst]; simp [Cache.Size, GoMap.keys, GoMap.len]
  · intro k it now hl h0 hnow
    refine ⟨?_, ?_⟩
    · rw [Cache.Get_fst_of_lookup_some hl]; simp [h0, hnow]
    · rw [Cache.AllIDs_fst, GoMap.mem_keys_iff, hl]; rfl

/-! ## Lifetime of an entry -/

theorem wrap64_of_isInt64 {x : Int} (h : IsInt64 x) : wrap64 x = x := by
  unfold IsInt64 int64Bound at h
  unfold wrap64 int64Bound
  omega

theorem wrap64_neg_of_overflow {x : Int} (h1 : int64Bound ≤ x) (h2 : x < 2 * int64Bound) :
    wrap64 x < 0 := by
  unfold int64Bound at h1 h2
  unfold wrap64 int64Bound
  omega

theorem expirationOf_eq (d0 ttl t : Int) :
    Cache.expirationOf d0 ttl t =
      if 0 < Cache.effectiveTTL d0 ttl then wrap64 (t + Cache.effectiveTTL d0 ttl) else 0 := by
  unfold Cache.expirationOf Cache.effectiveTTL
  by_cases h : ttl = 0 <;> simp [h]

theorem get_after_set_aux {α : Type} (v : α) (e t t' : Int) (he64 : IsInt64 e)
    (ht : 0 ≤ t) (htt : t ≤ t') (ht' : IsInt64 t') :
    ((e ≤ 0 ∨ t' ≤ t + e) →
      (if 0 < (if 0 < e then wrap64 (t + e) else 0) ∧
          (if 0 < e then wrap64 (t + e) else 0) < t' then none else some v) = some v) ∧
    ((0 < e ∧ t + e < t') →
      (if 0 < (if 0 < e then wrap64 (t + e) else 0) ∧
          (if 0 < e then wrap64 (t + e) else 0) < t' then none else some v) = none) := by
  refine ⟨?_, ?_⟩
  · intro h
    by_cases hpos : 0 < e
    · rw [if_pos hpos]
      by_cases hov : t + e < int64Bound
      · have hw : wrap64 (t + e) = t + e :=
          wrap64_of_isInt64 ⟨by unfold int64Bound; omega, hov⟩
        rw [hw]
        simp only [ite_eq_right_iff]
        intro hc
        omega
      · have hneg : wrap64 (t + e) < 0 :=
          wrap64_neg_of_overflow (by omega) (by
            have h1 := he64.2
            have h2 := ht'.2
            unfold int64Bound at h1 h2 ⊢
            omega)
        simp only [ite_eq_right_iff]
        intro hc
        omega
    · rw [if_neg hpos]
      simp
  · rintro ⟨hpos, hlt⟩
    rw [if_pos hpos]
    have hov : t + e < int64Bound := lt_trans hlt ht'.2
    have hw : wrap64 (t + e) = t + e :=
      wrap64_of_isInt64 ⟨by unfold int64Bound; omega, hov⟩
    rw [hw]
    simp only [ite_eq_left_iff]
    intro hc
    exfalso
    apply hc
    constructor <;> omega

/-- Claim C1. With `e` the override when it is not zero and the default
otherwise: in any later state `c'` of the cache in which `k` still has the
entry that `Set(k, v, ttl)` wrote at clock reading `t` (no `Set`, `Delete` or
sweep touched it), `Get(k)` at reading `t'` returns `v` when `e <= 0` or
`t' <= t + e`, and not-found when `e > 0` and `t' > t + e`; so an override of
zero on a cache with a positive default `d0` is not-found once `t' > t + d0`.
Clock readings are Unix nanoseconds of a clock not set before the epoch;
durations and readings are `int64` values. -/
theorem C1_write_then_read {V : Type} (c c' : Cache V) (k : String) (v : V)
    (ttl t t2 t' : Int)
    (hd0 : IsInt64 c.defaultExpiration) (httl : IsInt64 ttl)
    (ht : 0 ≤ t) (htt : t ≤ t') (ht' : IsInt64 t')
    (hkeep : c'.items.lookup k = (c.Set k v ttl t t2).items.lookup k) :
    ((Cache.effectiveTTL c.defaultExpiration ttl ≤ 0 ∨
        t' ≤ t + Cache.effectiveTTL c.defaultExpiration ttl) →
      (c'.Get k t').1 = some v) ∧
    ((0 < Cache.effectiveTTL c.defaultExpiration ttl ∧
        t + Cache.effectiveTTL c.defaultExpiration ttl < t') →
      (c'.Get k t').1 = none) ∧
    (ttl = 0 → 0 < c.defaultExpiration → t + c.defaultExpiration < t' →
      (c'.Get k t').1 = none) := by
  have he64 : IsInt64 (Cache.effectiveTTL c.defaultExpiration ttl) := by
    unfold Cache.effectiveTTL; split
    · exact httl
    · exact hd0
  have hl := hkeep.trans (Cache.Set_lookup_self c k v ttl t t2)
  have hG := Cache.Get_fst_of_lookup_some hl t'
  rw [expirationOf_eq] at hG
  simp only at hG
  have aux := get_after_set_aux v (Cache.effectiveTTL c.defaultExpiration ttl) t t' he64 ht htt ht'
  rw [← hG] at aux
  refine ⟨aux.1, aux.2, ?_⟩
  intro h0 hd hlt
  apply aux.2
  have : Cache.effectiveTTL c.defaultExpiration ttl = c.defaultExpiration := by
    simp [Cache.effectiveTTL, h0]
  rw [this]
  exact ⟨hd, hlt⟩

/-- Claim C1 at a cache with default lifetime 7: `a` is written at reading 100
with override 0, another key is written afterwards, and `a` is read at 110. -/
theorem C1_write_then_read_witness :
    (IsInt64 7 ∧ IsInt64 0 ∧ (0 : Int) ≤ 100 ∧ (100 : Int) ≤ 110 ∧ IsInt64 110 ∧
      (((Cache.New 7 0 : Cache String).Set "a" "v" 0 100 101).Set "b" "w" 0 102 103).items.lookup "a"
        = ((Cache.New 7 0 : Cache String).Set "a" "v" 0 100 101).items.lookup "a") ∧
    (((Cache.effectiveTTL 7 0 ≤ 0 ∨ (110 : Int) ≤ 100 + Cache.effectiveTTL 7 0) →
      (((((Cache.New 7 0 : Cache String).Set "a" "v" 0 100 101).Set "b" "w" 0 102 103).Get
        "a" 110).1 = some "v")) ∧
    ((0 < Cache.effectiveTTL 7 0 ∧ (100 : Int) + Cache.effectiveTTL 7 0 < 110) →
      (((((Cache.New 7 0 : Cache String).Set "a" "v" 0 100 101).Set "b" "w" 0 102 103).Get
        "a" 110).1 = none)) ∧
    (((0 : Int) = 0 → (0 : Int) < 7 → (100 : Int) + 7 < 110 →
      (((((Cache.New 7 0 : Cache String).Set "a" "v" 0 100 101).Set "b" "w" 0 102 103).Get
        "a" 110).1 = none)))) :=
  ⟨by decide,
   C1_write_then_read (Cache.New 7 0 : Cache String)
    (((Cache.New 7 0 : Cache String).Set "a" "v" 0 100 101).Set "b" "w" 0 102 103)
    "a" "v" 0 100 101 110
    (by decide) (by decide) (by decide) (by decide) (by decide) (by decide)⟩

/-- Counterexample to claim C8. With a lifetime of one nanosecond, a first
clock reading of 100 and a second of 105, the entry `Set` stores has the
deadline 101, which is set and not after its creation time 105; with the
largest `int64` lifetime the deadline wraps to a negative number, again set
and before the creation time. -/
theorem C8_counterexample :
    (100 : Int) ≤ 105 ∧
    ((Cache.New 1 0 : Cache String).Set "a" "v" 0 100 105).items.lookup "a"
      = some { Value := "v", Created := 105, Expiration := 101 } ∧
    (101 : Int) ≠ 0 ∧ ¬ ((101 : Int) > 105) ∧
    ((Cache.New 0 0 : Cache String).Set "a" "v" 9223372036854775807 100 100).items.lookup "a"
      = some { Value := "v", Created := 100, Expiration := -9223372036854775709 } ∧
    (-9223372036854775709 : Int) ≠ 0 ∧ ¬ ((-9223372036854775709 : Int) > 100) := by
  decide

/-- Claim C8, amended. An entry `Set` stores with a positive effective
lifetime `d`, at a first clock reading `t1` not before the epoch with
`t1 + d` an `int64`, has the deadline `t1 + d`: it is set, it is after the
first clock reading, and it is after the creation time `t2` exactly when the
second clock reading comes less than `d` after the first. -/
theorem C8_expiration_after_created {V : Type} (c : Cache V) (k : String) (v : V)
    (ttl t1 t2 : Int)
    (hd : 0 < Cache.effectiveTTL c.defaultExpiration ttl) (ht1 : 0 ≤ t1)
    (hov : t1 + Cache.effectiveTTL c.defaultExpiration ttl < int64Bound) :
    ∃ it, (c.Set k v ttl t1 t2).items.lookup k = some it ∧
      it.Value = v ∧ it.Created = t2 ∧
      it.Expiration = t1 + Cache.effectiveTTL c.defaultExpiration ttl ∧
      it.Expiration ≠ 0 ∧ it.Expiration > t1 ∧
      (it.Expiration > it.Created ↔
        t2 - t1 < Cache.effectiveTTL c.defaultExpiration ttl) := by
  refine ⟨_, Cache.Set_lookup_self c k v ttl t1 t2, rfl, rfl, ?_⟩
  simp only
  rw [expirationOf_eq, if_pos hd]
  have hw : wrap64 (t1 + Cache.effectiveTTL c.defaultExpiration ttl)
      = t1 + Cache.effectiveTTL c.defaultExpiration ttl :=
    wrap64_of_isInt64 ⟨by unfold int64Bound; omega, hov⟩
  rw [hw]
  refine ⟨rfl, by omega, by omega, ?_⟩
  constructor <;> intro h <;> omega

/-- Claim C8 amended, at a lifetime of 50 with clock readings 100 and 105. -/
theorem C8_expiration_after_created_witness :
    (0 < Cache.effectiveTTL 50 0 ∧ (0 : Int) ≤ 100 ∧
      100 + Cache.effectiveTTL 50 0 < int64Bound) ∧
    ∃ it, ((Cache.New 50 0 : Cache String).Set "a" "v" 0 100 105).items.lookup "a" = some it ∧
      it.Value = "v" ∧ it.Created = 105 ∧
      it.Expiration = 100 + Cache.effectiveTTL 50 0 ∧
      it.Expiration ≠ 0 ∧ it.Expiration > 100 ∧
      (it.Expiration > it.Created ↔ 105 - 100 < Cache.effectiveTTL 50 0) :=
  ⟨by decide,
   C8_expiration_after_created (Cache.New 50 0 : Cache String) "a" "v" 0 100 105
    (by decide) (by decide) (by decide)⟩

/-! ## Expiry and the sweep -/

theorem GoMap.mem_of_lookupList {β : Type} {k : String} {v : β} {l : List (String × β)}
    (h : GoMap.lookupList k l = some v) : (k, v) ∈ l := by
  induction l with
  | nil => simp [GoMap.lookupList] at h
  | cons p rest ih =>
    obtain ⟨k', w⟩ := p
    by_cases h1 : k' = k
    · simp [GoMap.lookupList, h1] at h
      simp [h1, h]
    · simp [GoMap.lookupList, h1] at h
      exact List.mem_cons_of_mem _ (ih h)

theorem GoMap.lookupList_of_mem {β : Type} {k : String} {v : β} {l : List (String × β)}
    (hnd : (l.map Prod.fst).Nodup) (h : (k, v) ∈ l) : GoMap.lookupList k l = some v := by
  induction l with
  | nil => simp at h
  | cons p rest ih =>
    obtain ⟨k', w⟩ := p
    rw [List.map_cons, List.nodup_cons] at hnd
    rcases List.mem_cons.1 h with h | h
    · cases h
      simp [GoMap.lookupList]
    · have hne : k' ≠ k := by
        intro e
        apply hnd.1
        rw [e]
        exact List.mem_map.2 ⟨(k, v), h, rfl⟩
      simp [GoMap.lookupList, hne, ih hnd.2 h]

theorem GoMap.lookup_foldl_remove {β : Type} (keys : List String) :
    ∀ (m : GoMap β) (k' : String),
      (keys.foldl (fun m k => m.remove k) m).lookup k' =
        if k' ∈ keys then none else m.lookup k' := by
  induction keys with
  | nil => intro m k'; simp
  | cons k rest ih =>
    intro m k'
    rw [List.foldl_cons, ih]
    by_cases h1 : k' ∈ rest
    · simp [h1]
    · by_cases h2 : k' = k
      · subst h2
        simp [h1, GoMap.lookup_remove_self]
      · simp [h1, h2, GoMap.lookup_remove_ne _ h2]

/-- The keys `expiredKeys` returns, for any clock: those of the entries found
past a set deadline at the reading made when the scan visited them. -/
theorem Cache.mem_expiredKeysLoop {V : Type} (clock : Nat → Int)
    (l : List (String × Item V)) :
    ∀ (n : Nat) (acc : List String) (k : String),
      k ∈ Cache.expiredKeysLoop clock l n acc ↔
        k ∈ acc ∨ ∃ j it, l[j]? = some (k, it) ∧
          clock (n + j) > it.Expiration ∧ it.Expiration > 0 := by
  induction l with
  | nil => intro n acc k; simp [Cache.expiredKeysLoop]
  | cons p rest ih =>
    intro n acc k
    obtain ⟨k0, it0⟩ := p
    have hsplit : (∃ j it, ((k0, it0) :: rest)[j]? = some (k, it) ∧
          clock (n + j) > it.Expiration ∧ it.Expiration > 0) ↔
        ((k0 = k ∧ clock n > it0.Expiration ∧ it0.Expiration > 0) ∨
          ∃ j it, rest[j]? = some (k, it) ∧
            clock (n + 1 + j) > it.Expiration ∧ it.Expiration > 0) := by
      constructor
      · rintro ⟨j, it, hj, hc⟩
        cases j with
        | zero =>
          simp at hj
          left
          obtain ⟨h1, h2⟩ := hj
          subst h1 h2
          exact ⟨rfl, by simpa using hc⟩
        | succ j =>
          right
          refine ⟨j, it, by simpa using hj, ?_⟩
          have : n + 1 + j = n + (j + 1) := by omega
          rw [this]; exact hc
      · rintro (⟨h1, hc⟩ | ⟨j, it, hj, hc⟩)
        · exact ⟨0, it0, by simp [h1], by simpa using hc⟩
        · refine ⟨j + 1, it, by simpa using hj, ?_⟩
          have : n + (j + 1) = n + 1 + j := by omega
          rw [this]; exact hc
    rw [hsplit]
    unfold Cache.expiredKeysLoop
    by_cases hc : clock n > it0.Expiration ∧ it0.Expiration > 0
    · rw [if_pos hc, ih]
      simp only [List.mem_append, List.mem_singleton]
      constructor
      · rintro ((h | h) | h)
        · exact Or.inl h
        · exact Or.inr (Or.inl ⟨h.symm, hc⟩)
        · exact Or.inr (Or.inr h)
      · rintro (h | ⟨h, _⟩ | h)
        · exact Or.inl (Or.inl h)
        · exact Or.inl (Or.inr h.symm)
        · exact Or.inr h
    · rw [if_neg hc, ih]
      constructor
      · rintro (h | h)
        · exact Or.inl h
        · exact Or.inr (Or.inr h)
      · rintro (h | ⟨_, h⟩ | h)
        · exact Or.inl h
        · exact absurd h hc
        · exact Or.inr h

/-- With the clock at `t` during the whole scan, `expiredKeys` returns the
keys bound to an entry with a set deadline before `t`. -/
theorem Cache.mem_expiredKeys_const {V : Type} (c : Cache V) (t : Int) (k : String) :
    k ∈ (c.expiredKeys (fun _ => t)).1 ↔
      ∃ it, c.items.lookup k = some it ∧ 0 < it.Expiration ∧ it.Expiration < t := by
  unfold Cache.expiredKeys
  rw [Cache.mem_expiredKeysLoop]
  constructor
  · rintro (h | ⟨j, it, hj, h1, h2⟩)
    · simp at h
    · exact ⟨it, GoMap.lookupList_of_mem c.items.nodup (List.getElem?_mem hj), h2, h1⟩
  · rintro ⟨it, hl, h1, h2⟩
    right
    obtain ⟨j, hj⟩ := List.mem_iff_getElem?.1 (GoMap.mem_of_lookupList hl)
    exact ⟨j, it, hj, h2, h1⟩

theorem Cache.GCtick_eq {V : Type} (c : Cache V) (clock : Nat → Int) :
    c.GCtick clock = (c.expiredKeys clock).2.clearItems (c.expiredKeys clock).1 := by
  unfold Cache.GCtick
  by_cases h : (c.expiredKeys clock).1.length ≠ 0
  · simp [h]
  · have h0 : (c.expiredKeys clock).1 = [] := List.length_eq_zero.1 (by simpa using h)
    have hl : (c.expiredKeys clock).1.length = 0 := by simpa using h
    simp only [hl, ne_eq, not_true_eq_false, if_false]
    rw [h0]
    simp [Cache.clearItems]

/-- The sweep for any clock whose readings during the scan lie between `t`
and `t'`: an entry with a set deadline before `t` is removed, an entry with no
positive deadline or with a deadline of at least `t'` is kept. -/
theorem Cache.GCtick_clock_bounds {V : Type} (c : Cache V) (clock : Nat → Int) (t t' : Int)
    (hlo : ∀ n, t ≤ clock n) (hhi : ∀ n, clock n ≤ t') (k : String) (it : Item V)
    (hl : c.items.lookup k = some it) :
    ((0 < it.Expiration ∧ it.Expiration < t) → (c.GCtick clock).items.lookup k = none) ∧
    ((it.Expiration ≤ 0 ∨ t' ≤ it.Expiration) →
      (c.GCtick clock).items.lookup k = some it) := by
  have hsweep : (c.GCtick clock).items.lookup k =
      if k ∈ (c.expiredKeys clock).1 then none else c.items.lookup k := by
    rw [Cache.GCtick_eq]
    simp only [Cache.clearItems]
    exact GoMap.lookup_foldl_remove _ _ _
  have hmem : k ∈ (c.expiredKeys clock).1 ↔
      ∃ j it', c.items.entries[j]? = some (k, it') ∧
        clock (0 + j) > it'.Expiration ∧ it'.Expiration > 0 := by
    unfold Cache.expiredKeys
    rw [Cache.mem_expiredKeysLoop]
    simp
  obtain ⟨j, hj⟩ := List.mem_iff_getElem?.1 (GoMap.mem_of_lookupList hl)
  refine ⟨?_, ?_⟩
  · rintro ⟨h0, h1⟩
    rw [hsweep, if_pos]
    rw [hmem]
    exact ⟨j, it, hj, by have := hlo (0 + j); omega, h0⟩
  · intro h
    rw [hsweep, if_neg, hl]
    rw [hmem]
    rintro ⟨j', it', hj', h1, h2⟩
    have hit : it' = it := by
      have h' := GoMap.lookupList_of_mem c.items.nodup (List.getElem?_mem hj')
      have : c.items.lookup k = some it' := h'
      rw [hl] at this
      cases this
      rfl
    subst hit
    have := hhi (0 + j')
    omega

/-- Claim C3. An entry with a set deadline before `t` is not-found for `Get`
at `t`, which leaves the cache as it is, so the key is still listed by
`AllIDs` and counted by `Size` (the length of that list). After a sweep at `t`
(`expiredKeys`, then `clearItems` on its result, which is what a round of `GC`
does) `AllIDs` no longer lists it, and an entry with deadline `0` or at least
`t` is still bound to the same value, creation time and deadline. -/
theorem C3_expiry_and_sweep {V : Type} (c : Cache V) (t : Int) (k : String) (it : Item V)
    (hl : c.items.lookup k = some it) :
    ((0 < it.Expiration ∧ it.Expiration < t) →
      (c.Get k t).1 = none ∧
      k ∈ ((c.Get k t).2.AllIDs).1 ∧
      ((c.Get k t).2.Size).1 = ((c.Get k t).2.AllIDs).1.length ∧
      k ∉ (((c.expiredKeys (fun _ => t)).2.clearItems
              (c.expiredKeys (fun _ => t)).1).AllIDs).1 ∧
      k ∉ ((c.GCtick (fun _ => t)).AllIDs).1) ∧
    ((it.Expiration = 0 ∨ it.Expiration ≥ t) →
      ((c.expiredKeys (fun _ => t)).2.clearItems
          (c.expiredKeys (fun _ => t)).1).items.lookup k = some it ∧
      (c.GCtick (fun _ => t)).items.lookup k = some it) := by
  have hsweep : ∀ k', ((c.expiredKeys (fun _ => t)).2.clearItems
      (c.expiredKeys (fun _ => t)).1).items.lookup k' =
        if k' ∈ (c.expiredKeys (fun _ => t)).1 then none else c.items.lookup k' := by
    intro k'
    simp only [Cache.clearItems]
    exact GoMap.lookup_foldl_remove _ _ _
  refine ⟨?_, ?_⟩
  · rintro ⟨h0, h1⟩
    have hmem : k ∈ (c.expiredKeys (fun _ => t)).1 :=
      (Cache.mem_expiredKeys_const c t k).2 ⟨it, hl, h0, h1⟩
    have hgone : k ∉ (((c.expiredKeys (fun _ => t)).2.clearItems
              (c.expiredKeys (fun _ => t)).1).AllIDs).1 := by
      rw [Cache.AllIDs_fst, GoMap.mem_keys_iff, hsweep k, if_pos hmem]
      simp
    refine ⟨?_, ?_, ?_, hgone, ?_⟩
    · rw [Cache.Get_fst_of_lookup_some hl]; simp [h0, h1]
    · rw [Cache.Get_snd, Cache.AllIDs_fst, GoMap.mem_keys_iff, hl]; rfl
    · rw [Cache.Get_snd, Cache.AllIDs_fst]; simp [Cache.Size, GoMap.keys, GoMap.len]
    · rw [Cache.GCtick_eq]; exact hgone
  · intro h
    have hnot : k ∉ (c.expiredKeys (fun _ => t)).1 := by
      rw [Cache.mem_expiredKeys_const]
      rintro ⟨it', hl', h0, h1⟩
      rw [hl] at hl'
      cases hl'
      omega
    have hkept := hsweep k
    rw [if_neg hnot, hl] at hkept
    refine ⟨hkept, ?_⟩
    rw [Cache.GCtick_eq]; exact hkept

/-- Claim C3 on a cache holding one entry with deadline 150, at `t` = 200. -/
theorem C3_expiry_and_sweep_witness :
    ((Cache.New 50 10 : Cache String).Set "a" "v" 0 100 100).items.lookup "a"
      = some { Value := "v", Created := 100, Expiration := 150 } ∧
    ((0 < (150 : Int) ∧ (150 : Int) < 200) →
      (((Cache.New 50 10 : Cache String).Set "a" "v" 0 100 100).Get "a" 200).1 = none ∧
      "a" ∈ ((((Cache.New 50 10 : Cache String).Set "a" "v" 0 100 100).Get "a" 200).2.AllIDs).1 ∧
      ((((Cache.New 50 10 : Cache String).Set "a" "v" 0 100 100).Get "a" 200).2.Size).1 =
        ((((Cache.New 50 10 : Cache String).Set "a" "v" 0 100 100).Get "a" 200).2.AllIDs).1.length ∧
      "a" ∉ ((((((Cache.New 50 10 : Cache String).Set "a" "v" 0 100 100).expiredKeys
                (fun _ => 200)).2.clearItems
              ((((Cache.New 50 10 : Cache String).Set "a" "v" 0 100 100).expiredKeys
                (fun _ => 200)).1)).AllIDs).1) ∧
      "a" ∉ (((((Cache.New 50 10 : Cache String).Set "a" "v" 0 100 100).GCtick
                (fun _ => 200))).AllIDs).1) ∧
    (((150 : Int) = 0 ∨ (150 : Int) ≥ 200) →
      (((((Cache.New 50 10 : Cache String).Set "a" "v" 0 100 100).expiredKeys
            (fun _ => 200)).2.clearItems
          ((((Cache.New 50 10 : Cache String).Set "a" "v" 0 100 100).expiredKeys
            (fun _ => 200)).1)).items.lookup "a"
        = some { Value := "v", Created := 100, Expiration := 150 }) ∧
      ((((Cache.New 50 10 : Cache String).Set "a" "v" 0 100 100).GCtick
          (fun _ => 200)).items.lookup "a"
        = some { Value := "v", Created := 100, Expiration := 150 })) :=
  ⟨by decide,
   C3_expiry_and_sweep ((Cache.New 50 10 : Cache String).Set "a" "v" 0 100 100) 200 "a"
    { Value := "v", Created := 100, Expiration := 150 } (by decide)⟩

/-! ## The workers -/

theorem setAll_nil (clock : Nat → Int × Int) (c : Cache Order) (n : Nat) :
    setAll clock c [] n = c := rfl

theorem setAll_cons (clock : Nat → Int × Int) (c : Cache Order) (o : Order)
    (rest : List Order) (n : Nat) :
    setAll clock c (o :: rest) n =
      setAll clock (c.Set o.OrderUid o 0 (clock n).1 (clock n).2) rest (n + 1) := rfl

theorem lastWithId_nil (id : String) : lastWithId id [] = none := rfl

theorem lastWithId_cons (id : String) (o : Order) (rest : List Order) :
    lastWithId id (o :: rest) =
      match lastWithId id rest with
      | some o' => some o'
      | none => if o.OrderUid = id then some o else none := by
  unfold lastWithId
  by_cases h : o.OrderUid = id
  · have hf : List.filter (fun o => decide (o.OrderUid = id)) (o :: rest)
        = o :: List.filter (fun o => decide (o.OrderUid = id)) rest :=
      List.filter_cons_of_pos (by simpa using h)
    rw [hf, List.getLast?_cons, if_pos h]
    generalize (List.filter (fun o => decide (o.OrderUid = id)) rest).getLast? = x
    cases x <;> rfl
  · have hf : List.filter (fun o => decide (o.OrderUid = id)) (o :: rest)
        = List.filter (fun o => decide (o.OrderUid = id)) rest :=
      List.filter_cons_of_neg (by simpa using h)
    rw [hf, if_neg h]
    generalize (List.filter (fun o => decide (o.OrderUid = id)) rest).getLast? = x
    cases x <;> rfl

theorem expirationOf_zero_of_nonpos {d0 : Int} (h : d0 ≤ 0) (t : Int) :
    Cache.expirationOf d0 0 t = 0 := by
  unfold Cache.expirationOf
  simp only [if_true]
  rw [if_neg (by omega)]

/-- On a cache whose default lifetime is not positive, after `setAll` a key
is bound to the last order of the list with that id, with no deadline, and
keeps its old entry when no order of the list has that id. -/
theorem setAll_lookup (clock : Nat → Int × Int) (id : String) (orders : List Order) :
    ∀ (c : Cache Order) (n : Nat), c.defaultExpiration ≤ 0 →
      (∀ o, lastWithId id orders = some o →
        ∃ t, (setAll clock c orders n).items.lookup id
          = some { Value := o, Created := t, Expiration := 0 }) ∧
      (lastWithId id orders = none →
        (setAll clock c orders n).items.lookup id = c.items.lookup id) := by
  induction orders with
  | nil =>
    intro c n _
    exact ⟨fun o h => by simp [lastWithId_nil] at h, fun _ => rfl⟩
  | cons o rest ih =>
    intro c n hd
    have hd' : (c.Set o.OrderUid o 0 (clock n).1 (clock n).2).defaultExpiration ≤ 0 := hd
    obtain ⟨ih1, ih2⟩ := ih (c.Set o.OrderUid o 0 (clock n).1 (clock n).2) (n + 1) hd'
    rw [setAll_cons, lastWithId_cons]
    cases hlast : lastWithId id rest with
    | some o' =>
      refine ⟨fun o'' h => ?_, fun h => by simp at h⟩
      simp only at h
      cases h
      exact ih1 o' hlast
    | none =>
      have hkeep := ih2 hlast
      by_cases hid : o.OrderUid = id
      · refine ⟨fun o'' h => ?_, fun h => by simp [hid] at h⟩
        simp only [hid, if_true] at h
        cases h
        refine ⟨(clock n).2, ?_⟩
        rw [hkeep, ← hid, Cache.Set_lookup_self, expirationOf_zero_of_nonpos hd]
      · refine ⟨fun o'' h => by simp [hid] at h, fun _ => ?_⟩
        rw [hkeep]
        exact Cache.Set_lookup_ne c (Ne.symm hid) o 0 _ _

theorem setAll_mem_keys (clock : Nat → Int × Int) (id : String) (orders : List Order) :
    ∀ (c : Cache Order) (n : Nat),
      id ∈ (setAll clock c orders n).items.keys ↔
        id ∈ c.items.keys ∨ ∃ o ∈ orders, o.OrderUid = id := by
  induction orders with
  | nil => intro c n; simp [setAll_nil]
  | cons o rest ih =>
    intro c n
    rw [setAll_cons, ih]
    have hset : id ∈ (c.Set o.OrderUid o 0 (clock n).1 (clock n).2).items.keys ↔
        id ∈ c.items.keys ∨ o.OrderUid = id := by
      by_cases hid : o.OrderUid = id
      · simp only [hid, or_true, iff_true]
        rw [GoMap.mem_keys_iff, ← hid, Cache.Set_lookup_self]; rfl
      · simp only [hid, or_false]
        rw [GoMap.mem_keys_iff, GoMap.mem_keys_iff, Cache.Set_lookup_ne c (Ne.symm hid)]
    rw [hset]
    simp only [List.mem_cons, exists_eq_or_imp]
    tauto

theorem Cache.startLoop_recv (clock : Nat → Int × Int) (orders : List Order) :
    ∀ (c : Cache Order) (n : Nat),
      Cache.startLoop clock c (orders.map Event.recv) n = setAll clock c orders n := by
  induction orders with
  | nil => intro c n; rfl
  | cons o rest ih =>
    intro c n
    rw [setAll_cons, ← ih]
    rfl

theorem Cache.initLoop_rows (clock : Nat → Int × Int) (rows : List (String × Order)) :
    ∀ (c : Cache Order) (n : Nat),
      Cache.initLoop clock c (rows.map some) n = some (setAll clock c (matching rows) n) := by
  induction rows with
  | nil => intro c n; rfl
  | cons r rest ih =>
    intro c n
    obtain ⟨id, order⟩ := r
    by_cases h : id = order.OrderUid
    · have hm : matching ((id, order) :: rest) = order :: matching rest := by
        simp [matching, h]
      rw [hm, setAll_cons, ← ih]
      simp [Cache.initLoop, h]
    · have hm : matching ((id, order) :: rest) = matching rest := by
        simp [matching, h]
      rw [hm, ← ih]
      simp [Cache.initLoop, h]

theorem persisted_cons (m : Dbclient.Msg) (rest : List Dbclient.Msg) :
    persisted (m :: rest) =
      match (if m.insert = Dbclient.InsertResult.ok then m.decoded else none) with
      | some o => o :: persisted rest
      | none => persisted rest := by
  unfold persisted
  rw [List.filterMap_cons]
  generalize (if m.insert = Dbclient.InsertResult.ok then m.decoded else none) = x
  cases x <;> rfl

theorem persisted_append (pre post : List Dbclient.Msg) :
    persisted (pre ++ post) = persisted pre ++ persisted post := by
  unfold persisted
  rw [List.filterMap_append]

theorem persisted_failed {m : Dbclient.Msg} (h : m.failed = true) (rest : List Dbclient.Msg) :
    persisted (m :: rest) = persisted rest := by
  rw [persisted_cons]
  unfold Dbclient.Msg.failed at h
  by_cases hi : m.insert = Dbclient.InsertResult.ok
  · cases hdec : m.decoded with
    | none => simp [hi]
    | some o => simp [hi, hdec] at h
  · simp [hi]

theorem Dbclient.startLoop_decode_error (g : Dbclient.Gateway) (m : Dbclient.Msg)
    (rest : List (Event Dbclient.Msg)) (h : m.decoded = none) :
    Dbclient.startLoop g (Event.recv m :: rest) =
      Dbclient.startLoop
        { g with log := g.log ++
            [(Dbclient.Level.error, "Unmarshal order errors. Unknown json struct.")] }
        rest := by
  simp [Dbclient.startLoop, h]

theorem Dbclient.startLoop_other_error (g : Dbclient.Gateway) (m : Dbclient.Msg)
    (rest : List (Event Dbclient.Msg)) (o : Order) (h : m.decoded = some o)
    (hi : m.insert = Dbclient.InsertResult.otherError) :
    Dbclient.startLoop g (Event.recv m :: rest) =
      Dbclient.startLoop
        { g with log := g.log ++ [(Dbclient.Level.debug, "Unmarshal order OK")] } rest := by
  simp [Dbclient.startLoop, h, hi]

theorem Dbclient.startLoop_pg_error (g : Dbclient.Gateway) (m : Dbclient.Msg)
    (rest : List (Event Dbclient.Msg)) (o : Order) (h : m.decoded = some o)
    (hi : m.insert = Dbclient.InsertResult.pgError) :
    Dbclient.startLoop g (Event.recv m :: rest) =
      { log := g.log ++ [(Dbclient.Level.debug, "Unmarshal order OK")] ++
          [(Dbclient.Level.fatal, "Error write message to DB")]
        sent := g.sent
        status := Dbclient.Status.exited } := by
  simp [Dbclient.startLoop, h, hi]

theorem Dbclient.startLoop_ok (g : Dbclient.Gateway) (m : Dbclient.Msg)
    (rest : List (Event Dbclient.Msg)) (o : Order) (h : m.decoded = some o)
    (hi : m.insert = Dbclient.InsertResult.ok) :
    Dbclient.startLoop g (Event.recv m :: rest) =
      Dbclient.startLoop
        { log := g.log ++ [(Dbclient.Level.debug, "Unmarshal order OK")]
          sent := g.sent ++ [o]
          status := g.status } rest := by
  simp [Dbclient.startLoop, h, hi]

/-- The worker on a run of messages none of which ends the process: it is
where it was, has sent the orders of the messages that decoded and were
inserted, has written one error-level entry for each message that did not
decode, and no fatal-level entry. -/
theorem Dbclient.startLoop_live (pre : List Dbclient.Msg) :
    ∀ (g : Dbclient.Gateway) (rest : List (Event Dbclient.Msg)),
      (∀ m ∈ pre, m.endsProcess = false) →
      ∃ lg : List (Dbclient.Level × String),
        Dbclient.startLoop g (pre.map Event.recv ++ rest) =
          Dbclient.startLoop
            { log := g.log ++ lg, sent := g.sent ++ persisted pre, status := g.status } rest ∧
        (lg.filter (fun e => decide (e.1 = Dbclient.Level.error))).length =
          (pre.filter (fun m => m.decoded.isNone)).length ∧
        lg.filter (fun e => decide (e.1 = Dbclient.Level.fatal)) = [] := by
  induction pre with
  | nil =>
    intro g rest _
    exact ⟨[], by simp [persisted], rfl, rfl⟩
  | cons m pre ih =>
    intro g rest hlive
    have hm : m.endsProcess = false := hlive m (List.mem_cons_self _ _)
    have hpre : ∀ m' ∈ pre, m'.endsProcess = false :=
      fun m' h => hlive m' (List.mem_cons_of_mem _ h)
    cases hdec : m.decoded with
    | none =>
      obtain ⟨lg, h1, h2, h3⟩ := ih
        { g with log := g.log ++
            [(Dbclient.Level.error, "Unmarshal order errors. Unknown json struct.")] }
        rest hpre
      refine ⟨(Dbclient.Level.error, "Unmarshal order errors. Unknown json struct.") :: lg,
        ?_, ?_, ?_⟩
      · have hp : persisted (m :: pre) = persisted pre :=
          persisted_failed (by simp [Dbclient.Msg.failed, hdec]) pre
        rw [hp]
        rw [List.map_cons, List.cons_append, Dbclient.startLoop_decode_error g m _ hdec, h1]
        simp
      · simp [hdec, h2]
      · simp [h3]
    | some o =>
      cases hins : m.insert with
      | pgError => simp [Dbclient.Msg.endsProcess, hdec, hins] at hm
      | otherError =>
        obtain ⟨lg, h1, h2, h3⟩ := ih
          { g with log := g.log ++ [(Dbclient.Level.debug, "Unmarshal order OK")] }
          rest hpre
        refine ⟨(Dbclient.Level.debug, "Unmarshal order OK") :: lg, ?_, ?_, ?_⟩
        · have hp : persisted (m :: pre) = persisted pre :=
            persisted_failed (by simp [Dbclient.Msg.failed, hins]) pre
          rw [hp]
          rw [List.map_cons, List.cons_append,
            Dbclient.startLoop_other_error g m _ o hdec hins, h1]
          simp
        · simp [hdec, h2]
        · simp [h3]
      | ok =>
        obtain ⟨lg, h1, h2, h3⟩ := ih
          { log := g.log ++ [(Dbclient.Level.debug, "Unmarshal order OK")]
            sent := g.sent ++ [o]
            status := g.status }
          rest hpre
        refine ⟨(Dbclient.Level.debug, "Unmarshal order OK") :: lg, ?_, ?_, ?_⟩
        · have hp : persisted (m :: pre) = o :: persisted pre := by
            rw [persisted_cons]; simp [hins, hdec]
          rw [hp]
          rw [List.map_cons, List.cons_append, Dbclient.startLoop_ok g m _ o hdec hins, h1]
          simp
        · simp [hdec, h2]
        · simp [h3]

theorem Dbclient.Start_live (msgs : List Dbclient.Msg)
    (hlive : ∀ m ∈ msgs, m.endsProcess = false) :
    (Dbclient.Start (msgs.map Event.recv)).sent = persisted msgs ∧
    (Dbclient.Start (msgs.map Event.recv)).status = Dbclient.Status.running := by
  obtain ⟨lg, h1, _, _⟩ := Dbclient.startLoop_live msgs Dbclient.Gateway.init [] hlive
  rw [List.append_nil] at h1
  unfold Dbclient.Start
  rw [h1]
  simp [Dbclient.startLoop, Dbclient.Gateway.init]

theorem pipeline_eq_setAll (c : Cache Order) (msgs : List Dbclient.Msg)
    (clock : Nat → Int × Int) (hlive : ∀ m ∈ msgs, m.endsProcess = false) :
    pipeline c (msgs.map Event.recv) clock = setAll clock c (persisted msgs) 0 := by
  unfold pipeline Cache.Start
  rw [(Dbclient.Start_live msgs hlive).1, Cache.startLoop_recv]

theorem Get_of_lookup_no_deadline {V : Type} {c : Cache V} {k : String} {v : V} {t : Int}
    (h : c.items.lookup k = some { Value := v, Created := t, Expiration := 0 }) (now : Int) :
    (c.Get k now).1 = some v := by
  rw [Cache.Get_fst_of_lookup_some h]
  simp

/-! ## Pipeline order and rehydration -/

/-- Claim C4. The gateway worker feeding the cache worker, on a list of
messages none of which ends the process and a cache whose default lifetime is
not positive: the gateway is still in its loop after the list; `Get(id)`
returns the order of the last message with that embedded id that decoded and
was inserted, when there is one; otherwise the key has the entry it had
before; and the final cache is the one obtained without a failed message. -/
theorem C4_pipeline_per_key_order (c : Cache Order) (msgs : List Dbclient.Msg)
    (clock : Nat → Int × Int) (hd : c.defaultExpiration ≤ 0)
    (hlive : ∀ m ∈ msgs, m.endsProcess = false) :
    (Dbclient.Start (msgs.map Event.recv)).status = Dbclient.Status.running ∧
    (∀ id o, lastWithId id (persisted msgs) = some o →
      ∀ now, ((pipeline c (msgs.map Event.recv) clock).Get id now).1 = some o) ∧
    (∀ id, lastWithId id (persisted msgs) = none →
      (pipeline c (msgs.map Event.recv) clock).items.lookup id = c.items.lookup id) ∧
    (∀ pre m post, msgs = pre ++ m :: post → m.failed = true →
      pipeline c ((pre ++ post).map Event.recv) clock
        = pipeline c (msgs.map Event.recv) clock) := by
  refine ⟨(Dbclient.Start_live msgs hlive).2, ?_, ?_, ?_⟩
  · intro id o hlast now
    rw [pipeline_eq_setAll c msgs clock hlive]
    obtain ⟨t, ht⟩ := (setAll_lookup clock id (persisted msgs) c 0 hd).1 o hlast
    exact Get_of_lookup_no_deadline ht now
  · intro id hlast
    rw [pipeline_eq_setAll c msgs clock hlive]
    exact (setAll_lookup clock id (persisted msgs) c 0 hd).2 hlast
  · intro pre m post hmsgs hfail
    have hlive' : ∀ m' ∈ pre ++ post, m'.endsProcess = false := by
      intro m' hm'
      apply hlive m'
      rw [hmsgs]
      rcases List.mem_append.1 hm' with h | h
      · exact List.mem_append_left _ h
      · exact List.mem_append_right _ (List.mem_cons_of_mem _ h)
    rw [pipeline_eq_setAll c msgs clock hlive, pipeline_eq_setAll c _ clock hlive', hmsgs,
      persisted_append, persisted_append, persisted_failed hfail]

/-- Claim C4 on three messages for the id `a`: one inserted, one whose insert
fails, one inserted. -/
theorem C4_pipeline_per_key_order_witness :
    ((Cache.New 0 0 : Cache Order).defaultExpiration ≤ 0 ∧
      lastWithId "a" (persisted
        [{ decoded := some { OrderUid := "a", body := "1" }, insert := Dbclient.InsertResult.ok },
         { decoded := some { OrderUid := "a", body := "2" },
           insert := Dbclient.InsertResult.otherError },
         { decoded := some { OrderUid := "a", body := "3" }, insert := Dbclient.InsertResult.ok }])
        = some { OrderUid := "a", body := "3" }) ∧
    ∀ now, ((pipeline (Cache.New 0 0)
      ([{ decoded := some { OrderUid := "a", body := "1" }, insert := Dbclient.InsertResult.ok },
        { decoded := some { OrderUid := "a", body := "2" },
          insert := Dbclient.InsertResult.otherError },
        { decoded := some { OrderUid := "a", body := "3" },
          insert := Dbclient.InsertResult.ok }].map Event.recv)
      (fun n => (100 + n, 101 + n))).Get "a" now).1 = some { OrderUid := "a", body := "3" } :=
  ⟨by decide,
   (C4_pipeline_per_key_order (Cache.New 0 0)
      [{ decoded := some { OrderUid := "a", body := "1" }, insert := Dbclient.InsertResult.ok },
       { decoded := some { OrderUid := "a", body := "2" },
         insert := Dbclient.InsertResult.otherError },
       { decoded := some { OrderUid := "a", body := "3" }, insert := Dbclient.InsertResult.ok }]
      (fun n => (100 + n, 101 + n)) (by decide) (by decide)).2.1 "a"
      { OrderUid := "a", body := "3" } (by decide)⟩

/-- Claim C7. `Init` on rows that all decode, from the empty cache with a
default lifetime that is not positive, returns a cache: the one obtained by
writing the orders of the rows whose id column equals the embedded id, in row
order, each with `ttlOverride` 0. Its keys are the embedded ids of those rows,
`Get(id)` returns the order of the last of them with that id, no entry has a
deadline, and a row whose ids differ can be removed without changing the
result. -/
theorem C7_rehydration (d0 ci : Int) (rows : List (String × Order))
    (clock : Nat → Int × Int) (hd : d0 ≤ 0) :
    ∃ c', Cache.Init (Cache.New d0 ci) (rows.map some) clock = some c' ∧
      c' = setAll clock (Cache.New d0 ci) (matching rows) 0 ∧
      (∀ id, id ∈ (c'.AllIDs).1 ↔ ∃ r ∈ rows, r.1 = r.2.OrderUid ∧ r.2.OrderUid = id) ∧
      (∀ id o, lastWithId id (matching rows) = some o →
        ∀ now, (c'.Get id now).1 = some o) ∧
      (∀ id it, c'.items.lookup id = some it → it.Expiration = 0) ∧
      (∀ pre r post, rows = pre ++ r :: post → r.1 ≠ r.2.OrderUid →
        Cache.Init (Cache.New d0 ci) ((pre ++ post).map some) clock = some c') := by
  refine ⟨_, Cache.initLoop_rows clock rows (Cache.New d0 ci) 0, rfl, ?_, ?_, ?_, ?_⟩
  · intro id
    rw [Cache.AllIDs_fst, setAll_mem_keys]
    have hempty : id ∉ (Cache.New d0 ci : Cache Order).items.keys := by
      simp [Cache.New, GoMap.empty, GoMap.keys]
    constructor
    · rintro (h | ⟨o, ho, hid⟩)
      · exact absurd h hempty
      · simp only [matching, List.mem_map, List.mem_filter, decide_eq_true_eq] at ho
        obtain ⟨r, ⟨hr, hmatch⟩, hro⟩ := ho
        exact ⟨r, hr, hmatch, by rw [hro]; exact hid⟩
    · rintro ⟨r, hr, hmatch, hid⟩
      right
      refine ⟨r.2, ?_, hid⟩
      simp only [matching, List.mem_map, List.mem_filter, decide_eq_true_eq]
      exact ⟨r, ⟨hr, hmatch⟩, rfl⟩
  · intro id o hlast now
    obtain ⟨t, ht⟩ :=
      (setAll_lookup clock id (matching rows) (Cache.New d0 ci) 0 hd).1 o hlast
    exact Get_of_lookup_no_deadline ht now
  · intro id it hl
    cases hlast : lastWithId id (matching rows) with
    | none =>
      have h := (setAll_lookup clock id (matching rows) (Cache.New d0 ci) 0 hd).2 hlast
      rw [hl] at h
      simp [Cache.New, GoMap.empty, GoMap.lookup, GoMap.lookupList] at h
    | some o =>
      obtain ⟨t, ht⟩ :=
        (setAll_lookup clock id (matching rows) (Cache.New d0 ci) 0 hd).1 o hlast
      rw [hl] at ht
      cases ht
      rfl
  · intro pre r post hrows hne
    have hm : matching (pre ++ post) = matching rows := by
      rw [hrows]
      simp [matching, hne]
    have := Cache.initLoop_rows clock (pre ++ post) (Cache.New d0 ci) 0
    rw [hm] at this
    exact this

/-- Claim C7 on the row `("abc", P)` with embedded id `abc` and a row whose
embedded id differs from its id column. -/
theorem C7_rehydration_witness :
    (0 : Int) ≤ 0 ∧
    ∃ c', Cache.Init (Cache.New 0 0)
        ([("abc", { OrderUid := "abc", body := "P" }),
          ("x", { OrderUid := "y", body := "Q" })].map some)
        (fun n => (100 + n, 101 + n)) = some c' ∧
      c' = setAll (fun n => (100 + n, 101 + n)) (Cache.New 0 0)
        (matching [("abc", { OrderUid := "abc", body := "P" }),
          ("x", { OrderUid := "y", body := "Q" })]) 0 ∧
      (∀ id, id ∈ (c'.AllIDs).1 ↔
        ∃ r ∈ [("abc", ({ OrderUid := "abc", body := "P" } : Order)),
            ("x", { OrderUid := "y", body := "Q" })],
          r.1 = r.2.OrderUid ∧ r.2.OrderUid = id) ∧
      (∀ id o, lastWithId id (matching [("abc", { OrderUid := "abc", body := "P" }),
          ("x", { OrderUid := "y", body := "Q" })]) = some o →
        ∀ now, (c'.Get id now).1 = some o) ∧
      (∀ id it, c'.items.lookup id = some it → it.Expiration = 0) ∧
      (∀ pre r post,
        [("abc", ({ OrderUid := "abc", body := "P" } : Order)),
          ("x", { OrderUid := "y", body := "Q" })] = pre ++ r :: post →
        r.1 ≠ r.2.OrderUid →
        Cache.Init (Cache.New 0 0) ((pre ++ post).map some)
          (fun n => (100 + n, 101 + n)) = some c') :=
  ⟨by decide,
   C7_rehydration 0 0
    [("abc", { OrderUid := "abc", body := "P" }), ("x", { OrderUid := "y", body := "Q" })]
    (fun n => (100 + n, 101 + n)) (by decide)⟩

/-! ## Errors in the gateway worker -/

/-- Counterexample to claim C6. A message that decodes and whose insert fails
with a `*pgconn.PgError` ends the worker with the process: the message after
it, which would decode and be inserted, is never sent to the cache, and no
interrupt was received. And an insert failure that is not a
`*pgconn.PgError` leaves no error-level entry in the log. -/
theorem C6_counterexample :
    (Dbclient.Start
      [Event.recv { decoded := some { OrderUid := "a", body := "1" },
                    insert := Dbclient.InsertResult.pgError },
       Event.recv { decoded := some { OrderUid := "b", body := "2" },
                    insert := Dbclient.InsertResult.ok }])
      = { log := [(Dbclient.Level.debug, "Unmarshal order OK"),
                  (Dbclient.Level.fatal, "Error write message to DB")]
          sent := []
          status := Dbclient.Status.exited } ∧
    (Dbclient.Start
      [Event.recv { decoded := some { OrderUid := "a", body := "1" },
                    insert := Dbclient.InsertResult.otherError }])
      = { log := [(Dbclient.Level.debug, "Unmarshal order OK")]
          sent := []
          status := Dbclient.Status.running } := by
  decide

/-- A message that decodes and whose insert fails with a `*pgconn.PgError`,
met while the worker is in its loop: a fatal-level entry is written, the
process ends, and nothing that follows is processed or sent. -/
theorem Dbclient.Start_pg_error (pre : List Dbclient.Msg)
    (hlive : ∀ m ∈ pre, m.endsProcess = false) (m : Dbclient.Msg)
    (post : List (Event Dbclient.Msg)) (hm : m.endsProcess = true) :
    (Dbclient.Start (pre.map Event.recv ++ Event.recv m :: post)).status
      = Dbclient.Status.exited ∧
    (Dbclient.Start (pre.map Event.recv ++ Event.recv m :: post)).sent
      = persisted pre ∧
    (Dbclient.Start (pre.map Event.recv ++ Event.recv m :: post)).log.getLast?
      = some (Dbclient.Level.fatal, "Error write message to DB") := by
  obtain ⟨lg, h1, _, _⟩ :=
    Dbclient.startLoop_live pre Dbclient.Gateway.init (Event.recv m :: post) hlive
  unfold Dbclient.Start
  rw [h1]
  cases hdec : m.decoded with
  | none => simp [Dbclient.Msg.endsProcess, hdec] at hm
  | some o =>
    have hins : m.insert = Dbclient.InsertResult.pgError := by
      simpa [Dbclient.Msg.endsProcess, hdec] using hm
    rw [Dbclient.startLoop_pg_error _ m post o hdec hins]
    simp [Dbclient.Gateway.init]

/-- Claim C6, amended. After messages none of which meets a
`*pgconn.PgError`: the worker is still in its loop and the process runs; it
has sent to the cache the orders of exactly the messages that decoded and
were inserted, so a message that failed is dropped and the next one is
handled; it has written one error-level entry per message that did not decode
(an insert failure leaves none) and no fatal-level entry. From there the
interrupt makes the worker return, with nothing more sent. -/
theorem C6_errors_in_gateway (pre : List Dbclient.Msg)
    (hlive : ∀ m ∈ pre, m.endsProcess = false) :
    ((Dbclient.Start (pre.map Event.recv)).status = Dbclient.Status.running ∧
      (Dbclient.Start (pre.map Event.recv)).sent = persisted pre ∧
      ((Dbclient.Start (pre.map Event.recv)).log.filter
          (fun e => decide (e.1 = Dbclient.Level.error))).length =
        (pre.filter (fun m => m.decoded.isNone)).length ∧
      (Dbclient.Start (pre.map Event.recv)).log.filter
          (fun e => decide (e.1 = Dbclient.Level.fatal)) = []) ∧
    (∀ post,
      (Dbclient.Start (pre.map Event.recv ++ Event.interrupt :: post)).status
        = Dbclient.Status.returned ∧
      (Dbclient.Start (pre.map Event.recv ++ Event.interrupt :: post)).sent
        = persisted pre) := by
  refine ⟨?_, ?_⟩
  · obtain ⟨lg, h1, h2, h3⟩ := Dbclient.startLoop_live pre Dbclient.Gateway.init [] hlive
    rw [List.append_nil] at h1
    unfold Dbclient.Start
    rw [h1]
    simp [Dbclient.startLoop, Dbclient.Gateway.init, h2, h3]
  · intro post
    obtain ⟨lg, h1, _, _⟩ :=
      Dbclient.startLoop_live pre Dbclient.Gateway.init (Event.interrupt :: post) hlive
    unfold Dbclient.Start
    rw [h1]
    simp [Dbclient.startLoop, Dbclient.Gateway.init]

/-- Claim C6 amended, after one message that does not decode and one whose
insert fails without a `*pgconn.PgError`. -/
theorem C6_errors_in_gateway_witness :
    (∀ m ∈ [({ decoded := none, insert := Dbclient.InsertResult.ok } : Dbclient.Msg),
          { decoded := some { OrderUid := "a", body := "1" },
            insert := Dbclient.InsertResult.otherError }],
        m.endsProcess = false) ∧
    (((Dbclient.Start
        ([({ decoded := none, insert := Dbclient.InsertResult.ok } : Dbclient.Msg),
          { decoded := some { OrderUid := "a", body := "1" },
            insert := Dbclient.InsertResult.otherError }].map Event.recv)).log.filter
          (fun e => decide (e.1 = Dbclient.Level.error))).length = 1) ∧
    (∀ post,
      (Dbclient.Start
        ([({ decoded := none, insert := Dbclient.InsertResult.ok } : Dbclient.Msg),
          { decoded := some { OrderUid := "a", body := "1" },
            insert := Dbclient.InsertResult.otherError }].map Event.recv
          ++ Event.interrupt :: post)).status = Dbclient.Status.returned ∧
      (Dbclient.Start
        ([({ decoded := none, insert := Dbclient.InsertResult.ok } : Dbclient.Msg),
          { decoded := some { OrderUid := "a", body := "1" },
            insert := Dbclient.InsertResult.otherError }].map Event.recv
          ++ Event.interrupt :: post)).sent = []) :=
  ⟨by decide,
   (C6_errors_in_gateway
      [({ decoded := none, insert := Dbclient.InsertResult.ok } : Dbclient.Msg),
       { decoded := some { OrderUid := "a", body := "1" },
         insert := Dbclient.InsertResult.otherError }] (by decide)).1.2.2.1,
   (C6_errors_in_gateway
      [({ decoded := none, insert := Dbclient.InsertResult.ok } : Dbclient.Msg),
       { decoded := some { OrderUid := "a", body := "1" },
         insert := Dbclient.InsertResult.otherError }] (by decide)).2⟩

/-! ## The sweeper against a concurrent `Set` -/

/-- Claim C5 fails on the code. The sweeper collects `k` while its entry is
past its deadline, a `Set` then writes a new entry for `k` with deadline 251,
and the second phase of the sweep deletes that entry: at clock reading 202
the last completed `Set` on `k` is not expired, no `Set` or `Delete` on `k`
followed it, and `Get(k)` reports not-found. -/
theorem C5_sweep_deletes_fresh_entry :
    ((Sys.run ({ cache := Cache.New 50 10, pending := none } : Sys String)
        [Step.set "k" "v1" 0 100 100, Step.collect (fun _ => 200),
         Step.set "k" "v2" 0 201 201]).cache.items.lookup "k"
      = some { Value := "v2", Created := 201, Expiration := 251 }) ∧
    (251 : Int) ≥ 202 ∧
    ((Sys.run ({ cache := Cache.New 50 10, pending := none } : Sys String)
        [Step.set "k" "v1" 0 100 100, Step.collect (fun _ => 200),
         Step.set "k" "v2" 0 201 201]).cache.Get "k" 202).1 = some "v2" ∧
    ((Sys.run ({ cache := Cache.New 50 10, pending := none } : Sys String)
        [Step.set "k" "v1" 0 100 100, Step.collect (fun _ => 200),
         Step.set "k" "v2" 0 201 201, Step.clear]).cache.items.lookup "k" = none) ∧
    ((Sys.run ({ cache := Cache.New 50 10, pending := none } : Sys String)
        [Step.set "k" "v1" 0 100 100, Step.collect (fun _ => 200),
         Step.set "k" "v2" 0 201 201, Step.clear]).cache.Get "k" 202).1 = none := by
  decide

end L0
